import Mathlib

/-!
Verification of the `datamine_exporter` repository's core transformation:
cell resolution, row-to-record building, column-title extraction, filename
normalization and the cross-sheet enrichment pass.

The Rust source is shallowly embedded:
* `Result`-returning functions become `RResult`, whose `err` constructor
  carries the `anyhow` context string and whose `abort` constructor models a
  Rust panic (`expect` / `unimplemented!`), i.e. a process abort.
* `f64` cell payloads are only ever observed through their `Display`
  rendering (`value.to_string()`); they are modelled by `NumLit`, which
  carries that decimal rendering as an opaque string.
* The regex `(?i)=IMAGE\("(.*)"\)` (with `Regex::captures`, i.e. search at
  the leftmost matching position, greedy `.*` not crossing a newline) is
  embedded directly over strings in `imageCaptures`; case folding is
  modelled at ASCII granularity, which is exact on the ASCII pattern letters.
* `serde_json::Map` is used by the source as an insertion-ordered map
  (`Record` below); the map behaviour (order preserved, insert replaces in
  place) follows the spec's description of records as ordered mappings,
  since the crate manifest selecting the map implementation is not part of
  the sources under verification.
-/

/-- Outcome of a Rust computation: success, a recoverable `anyhow` error
carrying its context message, or a panic (process abort) with its message. -/
inductive RResult (α : Type) where
  | ok : α → RResult α
  | err : String → RResult α
  | abort : String → RResult α
deriving DecidableEq

/-- True exactly on the panic outcome. -/
def RResult.isAbort : RResult α → Bool
  | .abort _ => true
  | _ => false

/-- Stand-in for an `f64` cell payload, observed only through its decimal
`Display` rendering (`value.to_string()` in the source). -/
structure NumLit where
  render : String
deriving DecidableEq

/-- `ExtendedValue` of the Google Sheets API model (both source files declare
the same untagged enum). -/
inductive ExtendedValue where
  | number : NumLit → ExtendedValue
  | string : String → ExtendedValue
  | bool : Bool → ExtendedValue
  | formula : String → ExtendedValue
  | empty : ExtendedValue
deriving DecidableEq

/-- A cell: optional as-entered value and optional computed (effective)
value, as in both `spreadsheet.rs` and `datamine.rs`. -/
structure CellData where
  user_entered_value : Option ExtendedValue
  effective_value : Option ExtendedValue
deriving DecidableEq

/-- One grid row. -/
structure RowData where
  values : List CellData
deriving DecidableEq

/-- One grid payload. -/
structure GridData where
  row_data : List RowData
deriving DecidableEq

/-- Sheet properties (only the title is modelled, as in the source). -/
structure SheetProperties where
  title : String
deriving DecidableEq

/-- A sheet: properties plus a list of grid payloads. -/
structure Sheet where
  properties : SheetProperties
  data : List GridData
deriving DecidableEq

/-- JSON values actually produced by the exporter: null, strings, and (during
enrichment) arrays of strings. -/
inductive JValue where
  | null : JValue
  | str : String → JValue
  | arr : List JValue → JValue

/-- Equality test against `Value::Null`. -/
def JValue.isNull : JValue → Bool
  | .null => true
  | _ => false

/-- `serde_json::Value::as_str`: `Some` exactly on strings. -/
def JValue.as_str : JValue → Option String
  | .str s => some s
  | _ => none

/-- A record: insertion-ordered mapping from column name to JSON value,
modelled as an association list without duplicate keys. -/
abbrev Record := List (String × JValue)

/-- Ordered-map lookup (`Map::get`). -/
def mapGet : Record → String → Option JValue
  | [], _ => none
  | kv :: rest, k => if kv.1 = k then some kv.2 else mapGet rest k

/-- Ordered-map insert (`Map::insert`): replace in place if the key is
present, else append at the end. -/
def mapInsert : Record → String → JValue → Record
  | [], k, v => [(k, v)]
  | kv :: rest, k, v => if kv.1 = k then (k, v) :: rest else kv :: mapInsert rest k v

/-- The keys of a record, in order. -/
def recordKeys (m : Record) : List String :=
  m.map (fun kv => kv.1)

/-- `row.iter().any(|(_key, value)| value != &Value::Null)`: the record holds
at least one non-null value. -/
def hasNonNull (m : Record) : Bool :=
  m.any (fun kv => !kv.2.isNull)

/-- Rust `char::to_ascii_lowercase`: shift `A`–`Z` down by 32, leave
everything else unchanged. -/
def asciiLowercase (c : Char) : Char :=
  if 'A' ≤ c ∧ c ≤ 'Z' then Char.ofNat (c.toNat + 32) else c

/-- Rust `char::is_ascii_alphanumeric`. -/
def is_ascii_alphanumeric (c : Char) : Bool :=
  decide (('0' ≤ c ∧ c ≤ '9') ∨ ('A' ≤ c ∧ c ≤ 'Z') ∨ ('a' ≤ c ∧ c ≤ 'z'))

/-- The literal head of the image-formula pattern, pre-lowercased:
matching it case-insensitively is comparing `asciiLowercase` images. -/
def imageHeadChars : List Char := "=image(\"".toList

/-- Strip a pre-lowercased literal pattern from the front of a string,
comparing ASCII-case-insensitively; `some rest` on success. -/
def stripHeadCI : List Char → List Char → Option (List Char)
  | [], s => some s
  | _ :: _, [] => none
  | p :: ps, c :: cs => if asciiLowercase c = p then stripHeadCI ps cs else none

/-- `.` of the regex crate matches anything but a newline; the span consumed
by `.*` must therefore contain no `'\n'`. -/
def noNewline (l : List Char) : Bool :=
  l.all (fun c => c ≠ '\n')

/-- Whether splitting `rest` at `j` closes the image formula: the first `j`
characters (consumed by `.*`) contain no newline and the remainder starts
with `")`. -/
def closeAt (rest : List Char) (j : Nat) : Bool :=
  noNewline (rest.take j) &&
    (match rest.drop j with
     | '"' :: ')' :: _ => true
     | _ => false)

/-- Greedy `.*`: the largest valid split point, if any. -/
def greedyCloseIndex (rest : List Char) : Option Nat :=
  (((List.range (rest.length + 1)).reverse).filter (fun j => closeAt rest j)).head?

/-- `IMAGE_FORMULA_RE.captures(value)` followed by taking capture group 1:
search for the leftmost position where the whole pattern
`(?i)=IMAGE\("(.*)"\)` matches; on success return the greedy group. -/
def imageCaptures : List Char → Option (List Char)
  | [] => none
  | c :: cs =>
    match stripHeadCI imageHeadChars (c :: cs) with
    | some rest =>
      match greedyCloseIndex rest with
      | some j => some (rest.take j)
      | none => imageCaptures cs
    | none => imageCaptures cs

namespace SpreadsheetRs

/-- Fallback of `CellData::to_string` in `spreadsheet.rs` once
`effective_value` is absent or `Empty`: an image formula yields its captured
URL (`expect` panics when the regex does not match), `Empty` yields `None`,
any other as-entered variant hits `unimplemented!`, and an absent as-entered
value yields `None`. -/
def userFallback (uv : Option ExtendedValue) : RResult (Option String) :=
  match uv with
  | some (ExtendedValue.formula v) =>
    match imageCaptures v.toList with
    | some url => RResult.ok (some (String.mk url))
    | none => RResult.abort "image formula expected"
  | some ExtendedValue.empty => RResult.ok none
  | some _ => RResult.abort "other user entered value type"
  | none => RResult.ok none

/-- `CellData::to_string` of `spreadsheet.rs`: a computed `String`/`Number`
wins outright; a computed `Empty` (or no computed value) falls back to the
as-entered value; other computed variants hit `unimplemented!`. -/
def CellData.to_string (cell : CellData) : RResult (Option String) :=
  match cell.effective_value with
  | some (ExtendedValue.string v) => RResult.ok (some v)
  | some (ExtendedValue.number v) => RResult.ok (some v.render)
  | some ExtendedValue.empty => userFallback cell.user_entered_value
  | some _ => RResult.abort "other effective value type"
  | none => userFallback cell.user_entered_value

/-- `Sheet::normalize_column_name`: spaces to underscores, everything else
ASCII-lowercased. -/
def normalize_column_name (column : String) : String :=
  String.mk (column.toList.map (fun c => if c = ' ' then '_' else asciiLowercase c))

/-- The `map(..).collect::<Result<Vec<_>>>()` body of `Sheet::column_titles`:
resolve each header cell, error with the `"Empty column title"` context when
one resolves to `None`, short-circuiting at the first failure. -/
def collectTitles : List CellData → RResult (List String)
  | [] => RResult.ok []
  | c :: cs =>
    match CellData.to_string c with
    | RResult.abort m => RResult.abort m
    | RResult.err m => RResult.err m
    | RResult.ok none => RResult.err "Empty column title"
    | RResult.ok (some t) =>
      match collectTitles cs with
      | RResult.ok ts => RResult.ok (normalize_column_name t :: ts)
      | RResult.err m => RResult.err m
      | RResult.abort m => RResult.abort m

/-- `Sheet::column_titles` of `spreadsheet.rs`. -/
def Sheet.column_titles (s : Sheet) : RResult (List String) :=
  match s.data.head? with
  | none => RResult.err "No grid data"
  | some gd =>
    match gd.row_data.head? with
    | none => RResult.err "No column titles"
    | some row0 => collectTitles row0.values

/-- `Sheet::rows` of `spreadsheet.rs`: all rows after the header. -/
def Sheet.rows (s : Sheet) : RResult (List RowData) :=
  match s.data.head? with
  | none => RResult.err "No grid data"
  | some gd =>
    if gd.row_data.length ≤ 1 then RResult.ok []
    else RResult.ok (gd.row_data.drop 1)

/-- The per-row loop of `Sheet::json_rows`: resolve each cell in order,
keying it under `columns.get(i)` (empty string when the row is longer than
the column list) and inserting the resolved string or `Null`. -/
def rowRecord (columns : List String) : Nat → Record → List CellData → RResult Record
  | _, m, [] => RResult.ok m
  | i, m, c :: cs =>
    match CellData.to_string c with
    | RResult.abort msg => RResult.abort msg
    | RResult.err msg => RResult.err msg
    | RResult.ok v =>
      rowRecord columns (i + 1)
        (mapInsert m (columns[i]?.getD "")
          (match v with
           | some s => JValue.str s
           | none => JValue.null))
        cs

/-- The `map(..).filter(..)` pipeline of `Sheet::json_rows` over the data
rows: build each record in row order and keep only those holding at least
one non-null value. -/
def json_rowsAux (columns : List String) : List RowData → RResult (List Record)
  | [] => RResult.ok []
  | r :: rs =>
    match rowRecord columns 0 [] r.values with
    | RResult.abort m => RResult.abort m
    | RResult.err m => RResult.err m
    | RResult.ok rec =>
      match json_rowsAux columns rs with
      | RResult.abort m => RResult.abort m
      | RResult.err m => RResult.err m
      | RResult.ok recs =>
        RResult.ok (if hasNonNull rec then rec :: recs else recs)

/-- The record list before the non-null filter: one record per data row, in
row order (proof-side description of the `map` stage alone). -/
def build_all (columns : List String) : List RowData → RResult (List Record)
  | [] => RResult.ok []
  | r :: rs =>
    match rowRecord columns 0 [] r.values with
    | RResult.abort m => RResult.abort m
    | RResult.err m => RResult.err m
    | RResult.ok rec =>
      match build_all columns rs with
      | RResult.abort m => RResult.abort m
      | RResult.err m => RResult.err m
      | RResult.ok recs => RResult.ok (rec :: recs)

/-- `Sheet::json_rows` of `spreadsheet.rs`. -/
def Sheet.json_rows (s : Sheet) : RResult (List Record) :=
  match Sheet.column_titles s with
  | RResult.err m => RResult.err m
  | RResult.abort m => RResult.abort m
  | RResult.ok columns =>
    match s.data.head? with
    | none => RResult.err "No grid data"
    | some gd => json_rowsAux columns (gd.row_data.drop 1)

end SpreadsheetRs

namespace DatamineRs

/-- Fallback of `CellData::to_string` in `datamine.rs`: unlike the
`spreadsheet.rs` version it has no arm for an as-entered `Empty`, so that
case falls into the `unimplemented!` catch-all. -/
def userFallback (uv : Option ExtendedValue) : RResult (Option String) :=
  match uv with
  | some (ExtendedValue.formula v) =>
    match imageCaptures v.toList with
    | some url => RResult.ok (some (String.mk url))
    | none => RResult.abort "image formula expected"
  | some _ => RResult.abort "other user entered value type"
  | none => RResult.ok none

/-- `CellData::to_string` of `datamine.rs`. -/
def CellData.to_string (cell : CellData) : RResult (Option String) :=
  match cell.effective_value with
  | some (ExtendedValue.string v) => RResult.ok (some v)
  | some (ExtendedValue.number v) => RResult.ok (some v.render)
  | some ExtendedValue.empty => userFallback cell.user_entered_value
  | some _ => RResult.abort "other effective value type"
  | none => userFallback cell.user_entered_value

/-- `Sheet::normalize_column_name` of `datamine.rs` (textually identical to
the `spreadsheet.rs` one). -/
def normalize_column_name (column : String) : String :=
  String.mk (column.toList.map (fun c => if c = ' ' then '_' else asciiLowercase c))

/-- The header-resolution loop of `Sheet::column_titles` in `datamine.rs`. -/
def collectTitles : List CellData → RResult (List String)
  | [] => RResult.ok []
  | c :: cs =>
    match CellData.to_string c with
    | RResult.abort m => RResult.abort m
    | RResult.err m => RResult.err m
    | RResult.ok none => RResult.err "Empty column title"
    | RResult.ok (some t) =>
      match collectTitles cs with
      | RResult.ok ts => RResult.ok (normalize_column_name t :: ts)
      | RResult.err m => RResult.err m
      | RResult.abort m => RResult.abort m

/-- `Sheet::column_titles` of `datamine.rs`. -/
def Sheet.column_titles (s : Sheet) : RResult (List String) :=
  match s.data.head? with
  | none => RResult.err "No grid data"
  | some gd =>
    match gd.row_data.head? with
    | none => RResult.err "No column titles"
    | some row0 => collectTitles row0.values

/-- The per-row loop of `Sheet::json_rows` in `datamine.rs` (same shape as
the `spreadsheet.rs` one, but calling this file's cell resolver). -/
def rowRecord (columns : List String) : Nat → Record → List CellData → RResult Record
  | _, m, [] => RResult.ok m
  | i, m, c :: cs =>
    match CellData.to_string c with
    | RResult.abort msg => RResult.abort msg
    | RResult.err msg => RResult.err msg
    | RResult.ok v =>
      rowRecord columns (i + 1)
        (mapInsert m (columns[i]?.getD "")
          (match v with
           | some s => JValue.str s
           | none => JValue.null))
        cs

/-- The row pipeline of `Sheet::json_rows` in `datamine.rs`: every built
record is kept — this version has no non-null filter. -/
def json_rowsAux (columns : List String) : List RowData → RResult (List Record)
  | [] => RResult.ok []
  | r :: rs =>
    match rowRecord columns 0 [] r.values with
    | RResult.abort m => RResult.abort m
    | RResult.err m => RResult.err m
    | RResult.ok rec =>
      match json_rowsAux columns rs with
      | RResult.abort m => RResult.abort m
      | RResult.err m => RResult.err m
      | RResult.ok recs => RResult.ok (rec :: recs)

/-- `Sheet::json_rows` of `datamine.rs`. -/
def Sheet.json_rows (s : Sheet) : RResult (List Record) :=
  match Sheet.column_titles s with
  | RResult.err m => RResult.err m
  | RResult.abort m => RResult.abort m
  | RResult.ok columns =>
    match s.data.head? with
    | none => RResult.err "No grid data"
    | some gd => json_rowsAux columns (gd.row_data.drop 1)

end DatamineRs

namespace MainRs

/-- `JsonSheet` of `main.rs`: a title and the sheet's records. -/
structure JsonSheet where
  title : String
  rows : List Record

/-- The dataset held by `struct Datamine` (a map from sheet title to
`JsonSheet`), modelled as an association list with unique keys; only its
`get` / `remove` / `insert` behaviour is relied upon. -/
abbrev Dataset := List (String × JsonSheet)

/-- `BTreeMap::get`. -/
def dmGet : Dataset → String → Option JsonSheet
  | [], _ => none
  | kv :: rest, k => if kv.1 = k then some kv.2 else dmGet rest k

/-- `BTreeMap::remove`, returning the removed sheet and the remaining
dataset. -/
def dmRemove : Dataset → String → Option (JsonSheet × Dataset)
  | [], _ => none
  | kv :: rest, k =>
    if kv.1 = k then some (kv.2, rest)
    else (dmRemove rest k).map (fun p => (p.1, kv :: p.2))

/-- `BTreeMap::insert`: replace in place when the key exists, else add. -/
def dmInsert : Dataset → String → JsonSheet → Dataset
  | [], k, v => [(k, v)]
  | kv :: rest, k, v => if kv.1 = k then (k, v) :: rest else kv :: dmInsert rest k v

/-- Whether an item record's `name` field is a string equal to `n`
(the `recipe_name == item_name` test of the enrichment loop). -/
def item_name_is (n : String) (item : Record) : Bool :=
  match (mapGet item "name").bind JValue.as_str with
  | some m => m = n
  | none => false

/-- The `filename` field of an item as a JSON value (used only for items
known to carry a string `filename`). -/
def item_filename (item : Record) : JValue :=
  match (mapGet item "filename").bind JValue.as_str with
  | some f => JValue.str f
  | none => JValue.null

/-- The inner loop of `assign_filenames_to_recipes`: scan every item of the
looked-up sheet, and for each whose `name` equals the recipe's name collect
its `filename`; missing or non-string fields are recoverable errors. -/
def collect_filenames (recipe_name : String) : List Record → RResult (List JValue)
  | [] => RResult.ok []
  | item :: items =>
    match mapGet item "name" with
    | none => RResult.err "Failed to get name field for an item"
    | some v =>
      match v.as_str with
      | none => RResult.err "Item name is not a string"
      | some item_name =>
        if recipe_name = item_name then
          match mapGet item "filename" with
          | none => RResult.err "Failed to get filename field for an item"
          | some fv =>
            match fv.as_str with
            | none => RResult.err "Item filename is not a string"
            | some filename =>
              match collect_filenames recipe_name items with
              | RResult.ok fs => RResult.ok (JValue.str filename :: fs)
              | RResult.err m => RResult.err m
              | RResult.abort m => RResult.abort m
        else collect_filenames recipe_name items

/-- One iteration of the recipe loop in `assign_filenames_to_recipes`,
running against the dataset with the `Recipes` sheet already removed: read
`category` and `name` (recoverable errors when missing or non-string), look
the category sheet up — warn and leave the record unchanged when it is
absent — otherwise attach the collected `filenames` list. -/
def process_recipe (d : Dataset) (recipe : Record) : RResult Record :=
  match mapGet recipe "category" with
  | none => RResult.err "Failed to get category field for a recipe"
  | some cv =>
    match cv.as_str with
    | none => RResult.err "Category is not a string"
    | some category =>
      match mapGet recipe "name" with
      | none => RResult.err "Failed to get name field for a recipe"
      | some nv =>
        match nv.as_str with
        | none => RResult.err "Recipe name is not a string"
        | some recipe_name =>
          match dmGet d category with
          | none => RResult.ok recipe
          | some items =>
            match collect_filenames recipe_name items.rows with
            | RResult.err m => RResult.err m
            | RResult.abort m => RResult.abort m
            | RResult.ok filenames =>
              RResult.ok (mapInsert recipe "filenames" (JValue.arr filenames))

/-- The recipe loop of `assign_filenames_to_recipes` over all records of the
removed `Recipes` sheet, in order, short-circuiting on the first error. -/
def process_recipes (d : Dataset) : List Record → RResult (List Record)
  | [] => RResult.ok []
  | r :: rs =>
    match process_recipe d r with
    | RResult.err m => RResult.err m
    | RResult.abort m => RResult.abort m
    | RResult.ok r' =>
      match process_recipes d rs with
      | RResult.err m => RResult.err m
      | RResult.abort m => RResult.abort m
      | RResult.ok rs' => RResult.ok (r' :: rs')

/-- `Datamine::assign_filenames_to_recipes` of `main.rs`: remove the
`Recipes` sheet (error when absent), enrich each of its records against the
remaining dataset, and re-insert the sheet under the same title. -/
def assign_filenames_to_recipes (d : Dataset) : RResult Dataset :=
  match dmRemove d "Recipes" with
  | none => RResult.err "Failed to find recipes"
  | some (recipes, rest) =>
    match process_recipes rest recipes.rows with
    | RResult.err m => RResult.err m
    | RResult.abort m => RResult.abort m
    | RResult.ok rows =>
      RResult.ok (dmInsert rest "Recipes" { title := recipes.title, rows := rows })

/-- `normalize_filename_fragment` of `main.rs`: keep ASCII alphanumerics and
`_` `.`, turn spaces into `_`, drop everything else, then ASCII-lowercase
each kept character. -/
def normalize_filename_fragment (name : String) : String :=
  String.mk
    ((name.toList.filterMap (fun c =>
        if is_ascii_alphanumeric c then some c
        else if c = '_' ∨ c = '.' then some c
        else if c = ' ' then some '_'
        else none)).map asciiLowercase)

end MainRs

/-- A header-cell literal with the given computed string. -/
def cellStr (s : String) : CellData := ⟨none, some (ExtendedValue.string s)⟩

/-- A fully empty cell (no computed, no as-entered value). -/
def cellNull : CellData := ⟨none, none⟩

/-- Sheet with column titles `a`, `b` and a single one-cell data row. -/
def exC2sheet : Sheet :=
  ⟨⟨"t"⟩, [⟨[⟨[cellStr "a", cellStr "b"]⟩, ⟨[cellStr "x"]⟩]⟩]⟩

/-- Sheet with columns `a`, `b` and one data row `x`, `y`. -/
def exC3sheet : Sheet :=
  ⟨⟨"t"⟩, [⟨[⟨[cellStr "a", cellStr "b"]⟩, ⟨[cellStr "x", cellStr "y"]⟩]⟩]⟩

/-- Sheet with column `a`, a data row resolving to `x`, and a trailing
fully-empty data row. -/
def exC5sheet : Sheet :=
  ⟨⟨"t"⟩, [⟨[⟨[cellStr "a"]⟩, ⟨[cellStr "x"]⟩, ⟨[cellNull]⟩]⟩]⟩

/-- Sheet with column `a` and one fully empty data row: the two `json_rows`
implementations succeed with different outputs. -/
def exC10sheet : Sheet :=
  ⟨⟨"t"⟩, [⟨[⟨[cellStr "a"]⟩, ⟨[cellNull]⟩]⟩]⟩

/-- First item of the enrichment example sheet. -/
def fpItem1 : Record := [("name", JValue.str "Fish Pie"), ("filename", JValue.str "fishpie")]

/-- Second item (same name, different filename). -/
def fpItem2 : Record :=
  [("name", JValue.str "Fish Pie"), ("filename", JValue.str "fishpie_alt")]

/-- A non-matching item. -/
def otherItem : Record := [("name", JValue.str "Other"), ("filename", JValue.str "zzz")]

/-- The looked-up `Food` sheet of the enrichment example. -/
def foodSheet : MainRs.JsonSheet := ⟨"Food", [fpItem1, fpItem2, otherItem]⟩

/-- The example recipe record. -/
def fishPieRecipe : Record :=
  [("name", JValue.str "Fish Pie"), ("category", JValue.str "Food")]

/-- The recipe record of the C6 witness, with a dangling category. -/
def poorRecipe : Record := [("name", JValue.str "p"), ("category", JValue.str "Nope")]

/-- The one-sheet dataset of the C6 witness. -/
def exC6dataset : MainRs.Dataset := [("Recipes", ⟨"Recipes", [poorRecipe]⟩)]

example : SpreadsheetRs.CellData.to_string
    ⟨some (ExtendedValue.formula "=IMAGE(\"http://x\")"), none⟩ =
    RResult.ok (some "http://x") := by decide

example : SpreadsheetRs.CellData.to_string
    ⟨some (ExtendedValue.formula "=image(\"u\")"), some ExtendedValue.empty⟩ =
    RResult.ok (some "u") := by decide

example : SpreadsheetRs.CellData.to_string
    ⟨some (ExtendedValue.formula "nope"), none⟩ =
    RResult.abort "image formula expected" := by decide

/-! ## Basic lemmas about the ordered map -/

/-- Inserting under key `k` leaves lookups of any other key unchanged. -/
theorem mapGet_mapInsert_ne (m : Record) (k c : String) (v : JValue) (h : k ≠ c) :
    mapGet (mapInsert m k v) c = mapGet m c := by
  induction m with
  | nil => simp [mapInsert, mapGet, h]
  | cons kv rest ih =>
    by_cases hk : kv.1 = k
    · subst hk
      simp [mapInsert, mapGet, h]
    · simp only [mapInsert, if_neg hk, mapGet]
      by_cases hc : kv.1 = c <;> simp [hc, ih]

/-- Inserting a fresh key appends it at the end of the key sequence. -/
theorem recordKeys_mapInsert_fresh (m : Record) (k : String) (v : JValue)
    (h : k ∉ recordKeys m) : recordKeys (mapInsert m k v) = recordKeys m ++ [k] := by
  induction m with
  | nil => simp [mapInsert, recordKeys]
  | cons kv rest ih =>
    have hk : kv.1 ≠ k := by
      intro he
      exact h (by simp [recordKeys, he])
    have hrest : k ∉ recordKeys rest := by
      intro hm
      exact h (by simp [recordKeys] at hm ⊢; exact Or.inr hm)
    simp [mapInsert, if_neg hk, recordKeys] at *
    exact ih hrest

/-! ## Cell resolution lemmas -/

/-- The `spreadsheet.rs` fallback never produces a recoverable error. -/
theorem sp_userFallback_ne_err (u : Option ExtendedValue) (m : String) :
    SpreadsheetRs.userFallback u ≠ RResult.err m := by
  intro h
  cases u with
  | none => exact RResult.noConfusion h
  | some v =>
    cases v with
    | formula f =>
      have h' : (match imageCaptures f.toList with
          | some url => RResult.ok (some (String.mk url))
          | none => RResult.abort "image formula expected") = RResult.err m := h
      cases hc : imageCaptures f.toList <;> rw [hc] at h' <;> exact RResult.noConfusion h'
    | empty => exact RResult.noConfusion h
    | number n => exact RResult.noConfusion h
    | string s => exact RResult.noConfusion h
    | bool b => exact RResult.noConfusion h

/-- The `spreadsheet.rs` cell resolver never produces a recoverable error:
its failures are panics. -/
theorem sp_to_string_ne_err (cell : CellData) (m : String) :
    SpreadsheetRs.CellData.to_string cell ≠ RResult.err m := by
  intro h
  rcases cell with ⟨u, e⟩
  cases e with
  | none => exact sp_userFallback_ne_err u m h
  | some v =>
    cases v with
    | string s => exact RResult.noConfusion h
    | number n => exact RResult.noConfusion h
    | empty => exact sp_userFallback_ne_err u m h
    | bool b => exact RResult.noConfusion h
    | formula f => exact RResult.noConfusion h

/-- Claim C1, counterexample: a cell whose computed value is absent and whose
as-entered value is the formula `"x"` (which does not match the image
pattern) makes both resolvers panic (`expect("image formula expected")`),
aborting the process — not return a recoverable `UnsupportedFormula` error
result as the claim states. -/
theorem c1_counterexample :
    SpreadsheetRs.CellData.to_string ⟨some (ExtendedValue.formula "x"), none⟩ =
      RResult.abort "image formula expected" ∧
    DatamineRs.CellData.to_string ⟨some (ExtendedValue.formula "x"), none⟩ =
      RResult.abort "image formula expected" := by
  exact ⟨by decide, by decide⟩

/-- Claim C1 (amended): for every cell whose computed value is absent or
`Empty` and whose as-entered value is a formula that does not match the
case-insensitive `IMAGE("<url>")` pattern, both cell resolvers panic with
`"image formula expected"` (a process abort, not a recoverable error
result), and no value is produced. -/
theorem c1_amended_unmatched_formula_panics (cell : CellData) (f : String)
    (he : cell.effective_value = none ∨ cell.effective_value = some ExtendedValue.empty)
    (hu : cell.user_entered_value = some (ExtendedValue.formula f))
    (hm : imageCaptures f.toList = none) :
    SpreadsheetRs.CellData.to_string cell = RResult.abort "image formula expected" ∧
    DatamineRs.CellData.to_string cell = RResult.abort "image formula expected" := by
  have hm' : imageCaptures f.data = none := hm
  rcases he with h | h <;>
    simp [SpreadsheetRs.CellData.to_string, DatamineRs.CellData.to_string,
      SpreadsheetRs.userFallback, DatamineRs.userFallback, h, hu, hm']

/-- Claim C1 amended-theorem witness at a concrete cell. -/
theorem c1_witness :
    imageCaptures (String.toList "x") = none ∧
    SpreadsheetRs.CellData.to_string
        ⟨some (ExtendedValue.formula "x"), some ExtendedValue.empty⟩ =
      RResult.abort "image formula expected" ∧
    DatamineRs.CellData.to_string
        ⟨some (ExtendedValue.formula "x"), some ExtendedValue.empty⟩ =
      RResult.abort "image formula expected" :=
  ⟨by decide,
   c1_amended_unmatched_formula_panics
     ⟨some (ExtendedValue.formula "x"), some ExtendedValue.empty⟩ "x"
     (Or.inr rfl) rfl (by decide)⟩

/-- Claim C7: a computed `Text(s)` resolves to `s` and a computed `Number(n)`
resolves to `n`'s decimal rendering, whatever the as-entered value is. -/
theorem c7_computed_text_number_precedence (u : Option ExtendedValue) (s : String)
    (n : NumLit) :
    SpreadsheetRs.CellData.to_string ⟨u, some (ExtendedValue.string s)⟩ =
      RResult.ok (some s) ∧
    SpreadsheetRs.CellData.to_string ⟨u, some (ExtendedValue.number n)⟩ =
      RResult.ok (some n.render) :=
  ⟨rfl, rfl⟩

/-- Claim C9: the export filename normalization keeps exactly the ASCII
alphanumerics, underscores and dots, maps each space to an underscore, drops
every other character, and lowercases the result — stated as a one-pass
per-character characterization following the spec's words. -/
theorem c9_normalize_filename_fragment_spec (s : String) :
    (MainRs.normalize_filename_fragment s).toList =
      s.toList.filterMap (fun c =>
        if is_ascii_alphanumeric c then some (asciiLowercase c)
        else if c = '_' ∨ c = '.' then some c
        else if c = ' ' then some '_'
        else none) := by
  show ((s.toList.filterMap _).map asciiLowercase) = _
  induction s.toList with
  | nil => rfl
  | cons c cs ih =>
    simp only [List.filterMap_cons]
    by_cases h1 : is_ascii_alphanumeric c = true
    · simp [h1, ih]
    · simp only [h1]
      by_cases h2 : c = '_' ∨ c = '.'
      · rcases h2 with rfl | rfl <;>
          simp [h1, ih] <;> decide
      · by_cases h3 : c = ' '
        · subst h3
          simp [h1, h2, ih]
          decide
        · simp [h1, h2, h3, ih]

/-! ## Claim C2: rows shorter than the column list -/

/-- If a key is absent from the accumulator and none of the columns consumed
by the remaining cells is that key, the built record does not contain it. -/
theorem sp_rowRecord_mapGet_none (cols : List String) (c : String) :
    ∀ (cells : List CellData) (i : Nat) (m rec : Record),
      mapGet m c = none →
      (∀ j, j < cells.length → ∃ t, cols[i + j]? = some t ∧ t ≠ c) →
      SpreadsheetRs.rowRecord cols i m cells = RResult.ok rec →
      mapGet rec c = none := by
  intro cells
  induction cells with
  | nil =>
    intro i m rec hm _ h
    cases h
    exact hm
  | cons cell cs ih =>
    intro i m rec hm hfresh h
    unfold SpreadsheetRs.rowRecord at h
    cases hc : SpreadsheetRs.CellData.to_string cell with
    | abort a => rw [hc] at h; exact RResult.noConfusion h
    | err e => exact absurd hc (sp_to_string_ne_err cell e)
    | ok v =>
      rw [hc] at h
      obtain ⟨t, ht, htc⟩ := hfresh 0 (Nat.succ_pos _)
      rw [Nat.add_zero] at ht
      rw [ht] at h
      refine ih (i + 1) _ rec ?_ ?_ h
      · rw [Option.getD_some]
        rw [mapGet_mapInsert_ne _ _ _ _ htc]
        exact hm
      · intro j hj
        have hj' : j + 1 < cs.length + 1 := by omega
        obtain ⟨t', ht', htc'⟩ := hfresh (j + 1) (by simpa using hj')
        refine ⟨t', ?_, htc'⟩
        have : i + (j + 1) = i + 1 + j := by omega
        rw [this] at ht'
        exact ht'

/-- Claim C2, counterexample: on a sheet with columns `a`, `b` and a data row
holding only one cell (resolving to `"x"`), the built record is
`{a: "x"}` — the missing trailing column `b` is not present as a key at all,
contradicting the claim that it is a key mapped to null. -/
theorem c2_counterexample :
    SpreadsheetRs.Sheet.json_rows exC2sheet = RResult.ok [[("a", JValue.str "x")]] ∧
    mapGet [("a", JValue.str "x")] "b" = none :=
  ⟨rfl, rfl⟩

/-- Claim C2 (amended): for every data row with fewer cells than the sheet
has column titles, the record built for that row omits the missing trailing
columns entirely — any column title beyond the row's cell count that is not
also one of the first cells' titles does not occur in the record (so in
particular it is not mapped to null). -/
theorem c2_amended_missing_columns_omitted (cols : List String)
    (cells : List CellData) (rec : Record) (c : String)
    (hrec : SpreadsheetRs.rowRecord cols 0 [] cells = RResult.ok rec)
    (hc : c ∈ cols.drop cells.length)
    (hfresh : ∀ j, j < cells.length → cols[j]? ≠ some c) :
    mapGet rec c = none := by
  have hlen : cells.length < cols.length := by
    by_contra hle
    rw [List.drop_eq_nil_of_le (by omega)] at hc
    exact List.not_mem_nil c hc
  refine sp_rowRecord_mapGet_none cols c cells 0 [] rec rfl ?_ hrec
  intro j hj
  have hjl : j < cols.length := by omega
  refine ⟨cols[j], ?_, ?_⟩
  · rw [Nat.zero_add]
    exact List.getElem?_eq_getElem hjl
  · intro he
    exact hfresh j hj (by rw [List.getElem?_eq_getElem hjl, he])

/-- Claim C2 amended-theorem witness: columns `a`, `b`, one cell resolving to
`"x"`; the record `{a: "x"}` has no `b` key. -/
theorem c2_witness :
    "b" ∈ (["a", "b"].drop [cellStr "x"].length) ∧
    mapGet [("a", JValue.str "x")] "b" = none :=
  ⟨by decide,
   c2_amended_missing_columns_omitted ["a", "b"] [cellStr "x"]
     [("a", JValue.str "x")] "b" rfl (by decide)
     (fun j hj => by
       have : j = 0 := by simpa using hj
       subst this
       decide)⟩

/-! ## Claims C3 and C5: record order, key order, blank-row filtering -/

/-- The fused row pipeline equals the unfiltered build followed by the
non-null filter. -/
theorem sp_json_rowsAux_eq_filter (cols : List String) :
    ∀ (rows : List RowData) (out : List Record),
      SpreadsheetRs.json_rowsAux cols rows = RResult.ok out →
      ∃ builds, SpreadsheetRs.build_all cols rows = RResult.ok builds ∧
        out = builds.filter hasNonNull := by
  intro rows
  induction rows with
  | nil =>
    intro out h
    cases h
    exact ⟨[], rfl, rfl⟩
  | cons r rs ih =>
    intro out h
    unfold SpreadsheetRs.json_rowsAux at h
    cases hr : SpreadsheetRs.rowRecord cols 0 [] r.values with
    | abort a => rw [hr] at h; exact RResult.noConfusion h
    | err e => rw [hr] at h; exact RResult.noConfusion h
    | ok rec =>
      rw [hr] at h
      cases hrs : SpreadsheetRs.json_rowsAux cols rs with
      | abort a => rw [hrs] at h; exact RResult.noConfusion h
      | err e => rw [hrs] at h; exact RResult.noConfusion h
      | ok recs =>
        rw [hrs] at h
        obtain ⟨builds, hb, hrecs⟩ := ih recs hrs
        injection h with h'
        refine ⟨rec :: builds, ?_, ?_⟩
        · unfold SpreadsheetRs.build_all
          rw [hr, hb]
        · rw [← h', hrecs, List.filter_cons]

/-- Under distinct column titles, building a row appends exactly the titles
of the consumed columns, in column order, after the accumulator's keys. -/
theorem sp_rowRecord_keys (cols : List String) (hnd : cols.Nodup) :
    ∀ (cells : List CellData) (i : Nat) (m rec : Record),
      i + cells.length ≤ cols.length →
      (∀ k ∈ recordKeys m, k ∈ cols.take i) →
      SpreadsheetRs.rowRecord cols i m cells = RResult.ok rec →
      recordKeys rec = recordKeys m ++ (cols.drop i).take cells.length := by
  intro cells
  induction cells with
  | nil =>
    intro i m rec _ _ h
    cases h
    simp
  | cons cell cs ih =>
    intro i m rec hlen hsub h
    unfold SpreadsheetRs.rowRecord at h
    cases hc : SpreadsheetRs.CellData.to_string cell with
    | abort a => rw [hc] at h; exact RResult.noConfusion h
    | err e => exact absurd hc (sp_to_string_ne_err cell e)
    | ok v =>
      rw [hc] at h
      have hi : i < cols.length := by
        simp only [List.length_cons] at hlen
        omega
      rw [List.getElem?_eq_getElem hi, Option.getD_some] at h
      have key : ∀ jv : JValue,
          SpreadsheetRs.rowRecord cols (i + 1) (mapInsert m cols[i] jv) cs =
            RResult.ok rec →
          recordKeys rec = recordKeys m ++ (cols.drop i).take (cell :: cs).length := by
        intro jv h'
        have hfresh : cols[i] ∉ recordKeys m := by
          intro hmem
          have htake : cols[i] ∈ cols.take i := hsub _ hmem
          have hdrop : cols[i] ∈ cols.drop i := by
            rw [List.drop_eq_getElem_cons hi]
            exact List.mem_cons_self _ _
          have hnd' : (cols.take i ++ cols.drop i).Nodup := by
            rw [List.take_append_drop]
            exact hnd
          exact (List.nodup_append.mp hnd').2.2 htake hdrop
        have hkeys := recordKeys_mapInsert_fresh m cols[i] jv hfresh
        have hres := ih (i + 1) (mapInsert m cols[i] jv) rec
          (by simp only [List.length_cons] at hlen; omega)
          (by
            intro k hk
            rw [hkeys] at hk
            rcases List.mem_append.mp hk with hk | hk
            · rw [List.take_succ]
              exact List.mem_append_left _ (hsub _ hk)
            · simp at hk
              subst hk
              rw [List.take_succ, List.getElem?_eq_getElem hi]
              exact List.mem_append_right _ (by simp))
          h'
        rw [hres, hkeys, List.append_assoc]
        congr 1
        rw [List.drop_eq_getElem_cons hi, List.length_cons, List.take_succ_cons,
          List.singleton_append]
      cases v with
      | some s => exact key (JValue.str s) h
      | none => exact key JValue.null h

/-- Claim C3: the emitted records are the per-row builds in row order with
only the all-null records removed (record order matches data-row order), and
— for distinct column titles and rows no longer than the column list — the
keys of each built record are exactly the titles of the consumed columns, in
column order. -/
theorem c3_record_and_key_order (s : Sheet) (gd : GridData) (cols : List String)
    (out : List Record)
    (hgd : s.data.head? = some gd)
    (hcols : SpreadsheetRs.Sheet.column_titles s = RResult.ok cols)
    (hout : SpreadsheetRs.Sheet.json_rows s = RResult.ok out) :
    (∃ builds, SpreadsheetRs.build_all cols (gd.row_data.drop 1) = RResult.ok builds ∧
      out = builds.filter hasNonNull) ∧
    (cols.Nodup → ∀ row ∈ gd.row_data.drop 1, ∀ rec,
      SpreadsheetRs.rowRecord cols 0 [] row.values = RResult.ok rec →
      row.values.length ≤ cols.length →
      recordKeys rec = cols.take row.values.length) := by
  constructor
  · unfold SpreadsheetRs.Sheet.json_rows at hout
    rw [hcols, hgd] at hout
    exact sp_json_rowsAux_eq_filter cols _ out hout
  · intro hnd row _ rec hrec hlen
    have := sp_rowRecord_keys cols hnd row.values 0 [] rec (by omega)
      (by intro k hk; cases hk) hrec
    simpa using this

/-- Claim C3 witness at a concrete two-column sheet. -/
theorem c3_witness :
    (∃ builds,
      SpreadsheetRs.build_all ["a", "b"]
          ((⟨[⟨[cellStr "a", cellStr "b"]⟩, ⟨[cellStr "x", cellStr "y"]⟩]⟩ :
            GridData).row_data.drop 1) = RResult.ok builds ∧
      [[("a", JValue.str "x"), ("b", JValue.str "y")]] = builds.filter hasNonNull) ∧
    ((["a", "b"] : List String).Nodup →
      ∀ row ∈ ((⟨[⟨[cellStr "a", cellStr "b"]⟩, ⟨[cellStr "x", cellStr "y"]⟩]⟩ :
        GridData).row_data.drop 1), ∀ rec,
        SpreadsheetRs.rowRecord ["a", "b"] 0 [] row.values = RResult.ok rec →
        row.values.length ≤ (["a", "b"] : List String).length →
        recordKeys rec = (["a", "b"] : List String).take row.values.length) :=
  c3_record_and_key_order exC3sheet
    ⟨[⟨[cellStr "a", cellStr "b"]⟩, ⟨[cellStr "x", cellStr "y"]⟩]⟩
    ["a", "b"] [[("a", JValue.str "x"), ("b", JValue.str "y")]] rfl rfl rfl

/-- Claim C5: every record the builder emits holds at least one non-null
value, and the emitted sequence is exactly the per-row builds with the
all-null records (including those of zero-cell rows) removed — records with
at least one non-null value are all kept, in order. -/
theorem c5_allnull_records_dropped (s : Sheet) (gd : GridData) (cols : List String)
    (out : List Record)
    (hgd : s.data.head? = some gd)
    (hcols : SpreadsheetRs.Sheet.column_titles s = RResult.ok cols)
    (hout : SpreadsheetRs.Sheet.json_rows s = RResult.ok out) :
    (∀ rec ∈ out, hasNonNull rec = true) ∧
    (∃ builds, SpreadsheetRs.build_all cols (gd.row_data.drop 1) = RResult.ok builds ∧
      out = builds.filter hasNonNull) := by
  unfold SpreadsheetRs.Sheet.json_rows at hout
  rw [hcols, hgd] at hout
  obtain ⟨builds, hb, hout'⟩ := sp_json_rowsAux_eq_filter cols _ out hout
  refine ⟨?_, builds, hb, hout'⟩
  intro rec hrec
  rw [hout'] at hrec
  exact List.of_mem_filter hrec

/-- Claim C5 witness: the all-null trailing record is dropped, the non-null
one kept. -/
theorem c5_witness :
    (∀ rec ∈ [[("a", JValue.str "x")]], hasNonNull rec = true) ∧
    (∃ builds,
      SpreadsheetRs.build_all ["a"]
          ((⟨[⟨[cellStr "a"]⟩, ⟨[cellStr "x"]⟩, ⟨[cellNull]⟩]⟩ :
            GridData).row_data.drop 1) = RResult.ok builds ∧
      [[("a", JValue.str "x")]] = builds.filter hasNonNull) :=
  c5_allnull_records_dropped exC5sheet ⟨[⟨[cellStr "a"]⟩, ⟨[cellStr "x"]⟩, ⟨[cellNull]⟩]⟩
    ["a"] [[("a", JValue.str "x")]] rfl rfl rfl

/-! ## Claim C8: column-title extraction -/

/-- The only recoverable error the title loop itself produces is
`"Empty column title"`. -/
theorem sp_collectTitles_err_msg :
    ∀ (cells : List CellData) (m : String),
      SpreadsheetRs.collectTitles cells = RResult.err m → m = "Empty column title" := by
  intro cells
  induction cells with
  | nil =>
    intro m h
    exact RResult.noConfusion h
  | cons c cs ih =>
    intro m h
    unfold SpreadsheetRs.collectTitles at h
    cases hc : SpreadsheetRs.CellData.to_string c with
    | abort a => rw [hc] at h; exact RResult.noConfusion h
    | err e => exact absurd hc (sp_to_string_ne_err c e)
    | ok v =>
      rw [hc] at h
      cases v with
      | none =>
        injection h with h'
        exact h'.symm
      | some t =>
        cases hr : SpreadsheetRs.collectTitles cs with
        | ok ts => rw [hr] at h; exact RResult.noConfusion h
        | abort a => rw [hr] at h; exact RResult.noConfusion h
        | err e =>
          rw [hr] at h
          injection h with h'
          rw [← h']
          exact ih e hr

/-- With no panicking header cell, the title loop errs with
`"Empty column title"` exactly when some header cell resolves to absent. -/
theorem sp_collectTitles_absent_iff :
    ∀ (cells : List CellData),
      (∀ c ∈ cells, (SpreadsheetRs.CellData.to_string c).isAbort = false) →
      (SpreadsheetRs.collectTitles cells = RResult.err "Empty column title" ↔
        ∃ c ∈ cells, SpreadsheetRs.CellData.to_string c = RResult.ok none) := by
  intro cells
  induction cells with
  | nil =>
    intro _
    constructor
    · intro h
      exact absurd h (fun h => RResult.noConfusion h)
    · rintro ⟨c, hc, _⟩
      exact absurd hc (List.not_mem_nil c)
  | cons c cs ih =>
    intro hna
    have hna' : ∀ x ∈ cs, (SpreadsheetRs.CellData.to_string x).isAbort = false :=
      fun x hx => hna x (List.mem_cons_of_mem c hx)
    constructor
    · intro h
      unfold SpreadsheetRs.collectTitles at h
      cases hc : SpreadsheetRs.CellData.to_string c with
      | abort a =>
        have := hna c (List.mem_cons_self c cs)
        rw [hc] at this
        exact absurd this (by simp [RResult.isAbort])
      | err e => exact absurd hc (sp_to_string_ne_err c e)
      | ok v =>
        rw [hc] at h
        cases v with
        | none => exact ⟨c, List.mem_cons_self c cs, hc⟩
        | some t =>
          cases hr : SpreadsheetRs.collectTitles cs with
          | ok ts => rw [hr] at h; exact RResult.noConfusion h
          | abort a => rw [hr] at h; exact RResult.noConfusion h
          | err e =>
            rw [hr] at h
            injection h with h'
            rw [h'] at hr
            obtain ⟨x, hx, hxn⟩ := (ih hna').mp hr
            exact ⟨x, List.mem_cons_of_mem c hx, hxn⟩
    · rintro ⟨x, hx, hxn⟩
      unfold SpreadsheetRs.collectTitles
      rcases List.mem_cons.mp hx with rfl | hx'
      · rw [hxn]
      · cases hc : SpreadsheetRs.CellData.to_string c with
        | abort a =>
          have := hna c (List.mem_cons_self c cs)
          rw [hc] at this
          exact absurd this (by simp [RResult.isAbort])
        | err e => exact absurd hc (sp_to_string_ne_err c e)
        | ok v =>
          cases v with
          | none => rfl
          | some t =>
            rw [(ih hna').mpr ⟨x, hx', hxn⟩]

/-- With no panicking and no absent header cell, the title loop succeeds
with one title per cell. -/
theorem sp_collectTitles_ok_len :
    ∀ (cells : List CellData),
      (∀ c ∈ cells, (SpreadsheetRs.CellData.to_string c).isAbort = false) →
      (∀ c ∈ cells, SpreadsheetRs.CellData.to_string c ≠ RResult.ok none) →
      ∃ ts, SpreadsheetRs.collectTitles cells = RResult.ok ts ∧
        ts.length = cells.length := by
  intro cells
  induction cells with
  | nil =>
    intro _ _
    exact ⟨[], rfl, rfl⟩
  | cons c cs ih =>
    intro hna hne
    obtain ⟨ts, hts, hlen⟩ := ih
      (fun x hx => hna x (List.mem_cons_of_mem c hx))
      (fun x hx => hne x (List.mem_cons_of_mem c hx))
    cases hc : SpreadsheetRs.CellData.to_string c with
    | abort a =>
      have := hna c (List.mem_cons_self c cs)
      rw [hc] at this
      exact absurd this (by simp [RResult.isAbort])
    | err e => exact absurd hc (sp_to_string_ne_err c e)
    | ok v =>
      cases v with
      | none => exact absurd hc (hne c (List.mem_cons_self c cs))
      | some t =>
        refine ⟨SpreadsheetRs.normalize_column_name t :: ts, ?_, by simp [hlen]⟩
        unfold SpreadsheetRs.collectTitles
        rw [hc, hts]

/-- Claim C8: column-title extraction fails with the no-grid error exactly
when the sheet carries no grid payload, with the no-titles error exactly
when a grid exists but has zero rows, and with the missing-title error
exactly when some header cell resolves to absent; otherwise (no header cell
resolving to absent) it succeeds with one title per header cell. Stated for
sheets whose header cells do not panic the resolver. -/
theorem c8_column_titles_error_cases (s : Sheet)
    (hna : ∀ gd row0, s.data.head? = some gd → gd.row_data.head? = some row0 →
      ∀ c ∈ row0.values, (SpreadsheetRs.CellData.to_string c).isAbort = false) :
    (SpreadsheetRs.Sheet.column_titles s = RResult.err "No grid data" ↔ s.data = []) ∧
    (SpreadsheetRs.Sheet.column_titles s = RResult.err "No column titles" ↔
      ∃ gd, s.data.head? = some gd ∧ gd.row_data = []) ∧
    (SpreadsheetRs.Sheet.column_titles s = RResult.err "Empty column title" ↔
      ∃ gd row0, s.data.head? = some gd ∧ gd.row_data.head? = some row0 ∧
        ∃ c ∈ row0.values, SpreadsheetRs.CellData.to_string c = RResult.ok none) ∧
    (∀ gd row0, s.data.head? = some gd → gd.row_data.head? = some row0 →
      (∀ c ∈ row0.values, SpreadsheetRs.CellData.to_string c ≠ RResult.ok none) →
      ∃ ts, SpreadsheetRs.Sheet.column_titles s = RResult.ok ts ∧
        ts.length = row0.values.length) := by
  rcases s with ⟨props, data⟩
  cases data with
  | nil =>
    refine ⟨⟨fun _ => rfl, fun _ => rfl⟩, ⟨?_, ?_⟩, ⟨?_, ?_⟩, ?_⟩
    · intro h
      injection h with h'
      exact absurd h' (by decide)
    · rintro ⟨gd, hgd, -⟩
      exact Option.noConfusion hgd
    · intro h
      injection h with h'
      exact absurd h' (by decide)
    · rintro ⟨gd, row0, hgd, -⟩
      exact Option.noConfusion hgd
    · intro gd row0 hgd
      exact absurd hgd (fun h => Option.noConfusion h)
  | cons gd rest =>
    rcases gd with ⟨rds⟩
    cases rds with
    | nil =>
      refine ⟨⟨?_, ?_⟩, ⟨fun _ => ⟨⟨[]⟩, rfl, rfl⟩, fun _ => rfl⟩, ⟨?_, ?_⟩, ?_⟩
      · intro h
        injection h with h'
        exact absurd h' (by decide)
      · intro h
        exact List.noConfusion h
      · intro h
        injection h with h'
        exact absurd h' (by decide)
      · rintro ⟨gd', row0, hgd, hrow, -⟩
        injection hgd with h'
        rw [← h'] at hrow
        exact Option.noConfusion hrow
      · intro gd' row0 hgd hrow
        injection hgd with h'
        rw [← h'] at hrow
        exact absurd hrow (fun h => Option.noConfusion h)
    | cons row0 rrest =>
      have hred : SpreadsheetRs.Sheet.column_titles ⟨props, ⟨row0 :: rrest⟩ :: rest⟩ =
          SpreadsheetRs.collectTitles row0.values := rfl
      have hna0 : ∀ c ∈ row0.values,
          (SpreadsheetRs.CellData.to_string c).isAbort = false :=
        hna ⟨row0 :: rrest⟩ row0 rfl rfl
      refine ⟨⟨?_, ?_⟩, ⟨?_, ?_⟩, ⟨?_, ?_⟩, ?_⟩
      · intro h
        rw [hred] at h
        exact absurd (sp_collectTitles_err_msg _ _ h) (by decide)
      · intro h
        exact List.noConfusion h
      · intro h
        rw [hred] at h
        exact absurd (sp_collectTitles_err_msg _ _ h) (by decide)
      · rintro ⟨gd', hgd, hnil⟩
        injection hgd with h'
        rw [← h'] at hnil
        exact List.noConfusion hnil
      · intro h
        rw [hred] at h
        obtain ⟨c, hc, hcn⟩ := (sp_collectTitles_absent_iff row0.values hna0).mp h
        exact ⟨⟨row0 :: rrest⟩, row0, rfl, rfl, c, hc, hcn⟩
      · rintro ⟨gd', row0', hgd, hrow, c, hc, hcn⟩
        injection hgd with h'
        rw [← h'] at hrow
        injection hrow with h''
        rw [← h''] at hc
        rw [hred]
        exact (sp_collectTitles_absent_iff row0.values hna0).mpr ⟨c, hc, hcn⟩
      · intro gd' row0' hgd hrow hne
        injection hgd with h'
        rw [← h'] at hrow
        injection hrow with h''
        rw [← h''] at hne
        obtain ⟨ts, hts, hlen⟩ := sp_collectTitles_ok_len row0.values hna0 hne
        refine ⟨ts, ?_, ?_⟩
        · rw [hred]
          exact hts
        · rw [← h'']
          exact hlen

/-- Claim C8 witness at a concrete one-column sheet (header `A B`). -/
theorem c8_witness :
    (∀ gd row0, (Sheet.data ⟨⟨"t"⟩, [⟨[⟨[cellStr "A B"]⟩]⟩]⟩).head? = some gd →
      gd.row_data.head? = some row0 →
      ∀ c ∈ row0.values, (SpreadsheetRs.CellData.to_string c).isAbort = false) ∧
    (SpreadsheetRs.Sheet.column_titles ⟨⟨"t"⟩, [⟨[⟨[cellStr "A B"]⟩]⟩]⟩ =
        RResult.err "No grid data" ↔ (Sheet.data ⟨⟨"t"⟩, [⟨[⟨[cellStr "A B"]⟩]⟩]⟩) = []) :=
  ⟨fun gd row0 hgd hrow => by
    injection hgd with h'
    rw [← h'] at hrow
    injection hrow with h''
    rw [← h'']
    decide,
   (c8_column_titles_error_cases ⟨⟨"t"⟩, [⟨[⟨[cellStr "A B"]⟩]⟩]⟩
     (fun gd row0 hgd hrow => by
       injection hgd with h'
       rw [← h'] at hrow
       injection hrow with h''
       rw [← h'']
       decide)).1⟩

/-! ## Claim C10: the two parallel implementations -/

/-- Whenever the `datamine.rs` fallback succeeds, the `spreadsheet.rs` one
succeeds with the same value (the converse fails on an as-entered `Empty`). -/
theorem dm_sp_userFallback (u : Option ExtendedValue) (v : Option String)
    (h : DatamineRs.userFallback u = RResult.ok v) :
    SpreadsheetRs.userFallback u = RResult.ok v := by
  cases u with
  | none => exact h
  | some uv =>
    cases uv with
    | formula f =>
      have h' : (match imageCaptures f.toList with
          | some url => RResult.ok (some (String.mk url))
          | none => RResult.abort "image formula expected") = RResult.ok v := h
      show (match imageCaptures f.toList with
          | some url => RResult.ok (some (String.mk url))
          | none => RResult.abort "image formula expected") = RResult.ok v
      exact h'
    | empty => exact RResult.noConfusion h
    | number n => exact RResult.noConfusion h
    | string s => exact RResult.noConfusion h
    | bool b => exact RResult.noConfusion h

/-- Whenever the `datamine.rs` resolver succeeds, the `spreadsheet.rs` one
succeeds with the same value. -/
theorem dm_sp_to_string (cell : CellData) (v : Option String)
    (h : DatamineRs.CellData.to_string cell = RResult.ok v) :
    SpreadsheetRs.CellData.to_string cell = RResult.ok v := by
  rcases cell with ⟨u, e⟩
  cases e with
  | none => exact dm_sp_userFallback u v h
  | some ev =>
    cases ev with
    | string s => exact h
    | number n => exact h
    | empty => exact dm_sp_userFallback u v h
    | bool b => exact RResult.noConfusion h
    | formula f => exact RResult.noConfusion h

/-- The two column normalizations are the same function. -/
theorem sp_dm_normalize_column_name (c : String) :
    SpreadsheetRs.normalize_column_name c = DatamineRs.normalize_column_name c := rfl

/-- Whenever the `datamine.rs` title loop succeeds, the `spreadsheet.rs` one
succeeds with the same titles. -/
theorem dm_sp_collectTitles :
    ∀ (cells : List CellData) (ts : List String),
      DatamineRs.collectTitles cells = RResult.ok ts →
      SpreadsheetRs.collectTitles cells = RResult.ok ts := by
  intro cells
  induction cells with
  | nil =>
    intro ts h
    exact h
  | cons c cs ih =>
    intro ts h
    unfold DatamineRs.collectTitles at h
    cases hc : DatamineRs.CellData.to_string c with
    | abort a => rw [hc] at h; exact RResult.noConfusion h
    | err e => rw [hc] at h; exact RResult.noConfusion h
    | ok v =>
      rw [hc] at h
      cases v with
      | none => exact RResult.noConfusion h
      | some t =>
        cases hr : DatamineRs.collectTitles cs with
        | abort a => rw [hr] at h; exact RResult.noConfusion h
        | err e => rw [hr] at h; exact RResult.noConfusion h
        | ok ts' =>
          rw [hr] at h
          unfold SpreadsheetRs.collectTitles
          rw [dm_sp_to_string c (some t) hc, ih ts' hr]
          exact h

/-- Whenever the `datamine.rs` row builder succeeds, the `spreadsheet.rs`
one succeeds with the same record. -/
theorem dm_sp_rowRecord (cols : List String) :
    ∀ (cells : List CellData) (i : Nat) (m rec : Record),
      DatamineRs.rowRecord cols i m cells = RResult.ok rec →
      SpreadsheetRs.rowRecord cols i m cells = RResult.ok rec := by
  intro cells
  induction cells with
  | nil =>
    intro i m rec h
    exact h
  | cons c cs ih =>
    intro i m rec h
    unfold DatamineRs.rowRecord at h
    cases hc : DatamineRs.CellData.to_string c with
    | abort a => rw [hc] at h; exact RResult.noConfusion h
    | err e => rw [hc] at h; exact RResult.noConfusion h
    | ok v =>
      rw [hc] at h
      unfold SpreadsheetRs.rowRecord
      rw [dm_sp_to_string c v hc]
      exact ih (i + 1) _ rec h

/-- Whenever the unfiltered `datamine.rs` pipeline succeeds, the filtered
`spreadsheet.rs` pipeline succeeds with exactly the non-null records. -/
theorem dm_sp_json_rowsAux (cols : List String) :
    ∀ (rows : List RowData) (l : List Record),
      DatamineRs.json_rowsAux cols rows = RResult.ok l →
      SpreadsheetRs.json_rowsAux cols rows = RResult.ok (l.filter hasNonNull) := by
  intro rows
  induction rows with
  | nil =>
    intro l h
    injection h with h'
    rw [← h']
    rfl
  | cons r rs ih =>
    intro l h
    unfold DatamineRs.json_rowsAux at h
    cases hr : DatamineRs.rowRecord cols 0 [] r.values with
    | abort a => rw [hr] at h; exact RResult.noConfusion h
    | err e => rw [hr] at h; exact RResult.noConfusion h
    | ok rec =>
      rw [hr] at h
      cases hrs : DatamineRs.json_rowsAux cols rs with
      | abort a => rw [hrs] at h; exact RResult.noConfusion h
      | err e => rw [hrs] at h; exact RResult.noConfusion h
      | ok recs =>
        rw [hrs] at h
        injection h with h'
        unfold SpreadsheetRs.json_rowsAux
        rw [dm_sp_rowRecord cols r.values 0 [] rec hr, ih recs hrs, ← h',
          List.filter_cons]

/-- Claim C10, counterexample: on a sheet whose only data row is fully
empty, both implementations succeed but produce different record sequences
(`datamine.rs` keeps the all-null record, `spreadsheet.rs` drops it), so
they are not observationally equivalent. -/
theorem c10_counterexample :
    SpreadsheetRs.Sheet.json_rows exC10sheet = RResult.ok [] ∧
    DatamineRs.Sheet.json_rows exC10sheet = RResult.ok [[("a", JValue.null)]] :=
  ⟨rfl, rfl⟩

/-- Claim C10 (amended): the two implementations agree up to the blank-record
filter — whenever the `datamine.rs` builder succeeds, the `spreadsheet.rs`
builder succeeds and returns exactly the records holding at least one
non-null value, in the same order. (They differ on all-null records, which
only `spreadsheet.rs` drops, and `datamine.rs` additionally panics on cells
whose as-entered value is `Empty` where `spreadsheet.rs` resolves to null.) -/
theorem c10_amended_filter_refinement (s : Sheet) (l : List Record)
    (h : DatamineRs.Sheet.json_rows s = RResult.ok l) :
    SpreadsheetRs.Sheet.json_rows s = RResult.ok (l.filter hasNonNull) := by
  unfold DatamineRs.Sheet.json_rows at h
  cases hcols : DatamineRs.Sheet.column_titles s with
  | abort a => rw [hcols] at h; exact RResult.noConfusion h
  | err e => rw [hcols] at h; exact RResult.noConfusion h
  | ok cols =>
    rw [hcols] at h
    cases hgd : s.data.head? with
    | none => rw [hgd] at h; exact RResult.noConfusion h
    | some gd =>
      rw [hgd] at h
      have hcols' : SpreadsheetRs.Sheet.column_titles s = RResult.ok cols := by
        unfold DatamineRs.Sheet.column_titles at hcols
        rw [hgd] at hcols
        replace hcols : (match gd.row_data.head? with
            | none => RResult.err "No column titles"
            | some row0 => DatamineRs.collectTitles row0.values) =
            RResult.ok cols := hcols
        cases hrow : gd.row_data.head? with
        | none => rw [hrow] at hcols; exact RResult.noConfusion hcols
        | some row0 =>
          rw [hrow] at hcols
          unfold SpreadsheetRs.Sheet.column_titles
          rw [hgd]
          show (match gd.row_data.head? with
            | none => RResult.err "No column titles"
            | some row0 => SpreadsheetRs.collectTitles row0.values) = RResult.ok cols
          rw [hrow]
          exact dm_sp_collectTitles row0.values cols hcols
      unfold SpreadsheetRs.Sheet.json_rows
      rw [hcols', hgd]
      exact dm_sp_json_rowsAux cols _ l h

/-- Claim C10 amended-theorem witness at the counterexample sheet. -/
theorem c10_witness :
    DatamineRs.Sheet.json_rows exC10sheet = RResult.ok [[("a", JValue.null)]] ∧
    SpreadsheetRs.Sheet.json_rows exC10sheet =
      RResult.ok ([[("a", JValue.null)]].filter hasNonNull) :=
  ⟨rfl, c10_amended_filter_refinement exC10sheet [[("a", JValue.null)]] rfl⟩

/-! ## Claims C4 and C6: cross-sheet enrichment -/

/-- The inner enrichment loop collects exactly the `filename` values of the
items whose `name` equals the recipe's name, in item order, duplicates kept
— provided every item has a string `name` and every matching item a string
`filename`. -/
theorem mn_collect_filenames_spec (n : String) :
    ∀ (rows : List Record),
      (∀ item ∈ rows, ((mapGet item "name").bind JValue.as_str).isSome = true) →
      (∀ item ∈ rows, MainRs.item_name_is n item = true →
        ((mapGet item "filename").bind JValue.as_str).isSome = true) →
      MainRs.collect_filenames n rows =
        RResult.ok ((rows.filter (MainRs.item_name_is n)).map MainRs.item_filename) := by
  intro rows
  induction rows with
  | nil =>
    intro _ _
    rfl
  | cons item rest ih =>
    intro hn hf
    obtain ⟨nm, hnm⟩ := Option.isSome_iff_exists.mp (hn item (List.mem_cons_self item rest))
    cases hv : mapGet item "name" with
    | none =>
      rw [hv] at hnm
      exact Option.noConfusion hnm
    | some v =>
      rw [hv, Option.some_bind] at hnm
      have hrest := ih (fun x hx => hn x (List.mem_cons_of_mem item hx))
        (fun x hx h => hf x (List.mem_cons_of_mem item hx) h)
      have hni : MainRs.item_name_is n item = decide (nm = n) := by
        unfold MainRs.item_name_is
        rw [hv, Option.some_bind, hnm]
      by_cases heq : n = nm
      · subst heq
        have hnit : MainRs.item_name_is n item = true := by
          rw [hni]
          simp
        obtain ⟨fs, hfs⟩ := Option.isSome_iff_exists.mp
          (hf item (List.mem_cons_self item rest) hnit)
        cases hfv : mapGet item "filename" with
        | none =>
          rw [hfv] at hfs
          exact Option.noConfusion hfs
        | some fv =>
          rw [hfv, Option.some_bind] at hfs
          have hif : MainRs.item_filename item = JValue.str fs := by
            unfold MainRs.item_filename
            rw [hfv, Option.some_bind, hfs]
          simp only [MainRs.collect_filenames, hv, hnm, hfv, hfs, hrest,
            List.filter_cons, hnit, List.map_cons, hif, if_pos, if_true, decide_True]
      · have hnif : MainRs.item_name_is n item = false := by
          rw [hni]
          simp
          intro h
          exact heq h.symm
        simp only [MainRs.collect_filenames, hv, hnm, List.filter_cons, hnif,
          if_neg heq, hrest]
        simp

/-- Claim C4: for a record whose `category` names a sheet present in the
(join-time) dataset, enrichment attaches under `filenames` exactly the
`filename` values of the looked-up sheet's records whose `name` string-equals
the recipe's `name`, in that sheet's record order, duplicates kept, and the
list is attached even when empty. -/
theorem c4_enrichment_attaches_exact_matches (d : MainRs.Dataset) (r : Record)
    (c n : String) (items : MainRs.JsonSheet)
    (hc : mapGet r "category" = some (JValue.str c))
    (hn : mapGet r "name" = some (JValue.str n))
    (hl : MainRs.dmGet d c = some items)
    (hnames : ∀ item ∈ items.rows, ((mapGet item "name").bind JValue.as_str).isSome = true)
    (hfiles : ∀ item ∈ items.rows, MainRs.item_name_is n item = true →
      ((mapGet item "filename").bind JValue.as_str).isSome = true) :
    MainRs.process_recipe d r =
      RResult.ok (mapInsert r "filenames"
        (JValue.arr ((items.rows.filter (MainRs.item_name_is n)).map
          MainRs.item_filename))) := by
  have hcf := mn_collect_filenames_spec n items.rows hnames hfiles
  simp only [MainRs.process_recipe, hc, hn, hl, JValue.as_str, hcf]

/-- Claim C4 witness: the spec's enrichment scenario, including the
duplicate filenames in source order. -/
theorem c4_witness :
    MainRs.dmGet [("Food", foodSheet)] "Food" = some foodSheet ∧
    MainRs.process_recipe [("Food", foodSheet)] fishPieRecipe =
      RResult.ok (mapInsert fishPieRecipe "filenames"
        (JValue.arr ((foodSheet.rows.filter (MainRs.item_name_is "Fish Pie")).map
          MainRs.item_filename))) :=
  ⟨rfl,
   c4_enrichment_attaches_exact_matches [("Food", foodSheet)] fishPieRecipe
     "Food" "Fish Pie" foodSheet rfl rfl rfl (by decide) (by decide)⟩

/-- A record whose `category` names a sheet absent from the dataset is
returned unchanged (warn-and-skip). -/
theorem mn_process_recipe_skip (d : MainRs.Dataset) (r : Record) (c n : String)
    (hc : mapGet r "category" = some (JValue.str c))
    (hn : mapGet r "name" = some (JValue.str n))
    (hmiss : MainRs.dmGet d c = none) :
    MainRs.process_recipe d r = RResult.ok r := by
  simp only [MainRs.process_recipe, hc, hn, hmiss, JValue.as_str]

/-- The recipe loop distributes over list append on success. -/
theorem mn_process_recipes_append (d : MainRs.Dataset) :
    ∀ (xs ys os ps : List Record),
      MainRs.process_recipes d xs = RResult.ok os →
      MainRs.process_recipes d ys = RResult.ok ps →
      MainRs.process_recipes d (xs ++ ys) = RResult.ok (os ++ ps) := by
  intro xs
  induction xs with
  | nil =>
    intro ys os ps hx hy
    injection hx with h'
    rw [← h']
    simpa using hy
  | cons x xs ih =>
    intro ys os ps hx hy
    unfold MainRs.process_recipes at hx
    cases hpx : MainRs.process_recipe d x with
    | err e => rw [hpx] at hx; exact RResult.noConfusion hx
    | abort a => rw [hpx] at hx; exact RResult.noConfusion hx
    | ok x' =>
      rw [hpx] at hx
      cases hxs : MainRs.process_recipes d xs with
      | err e => rw [hxs] at hx; exact RResult.noConfusion hx
      | abort a => rw [hxs] at hx; exact RResult.noConfusion hx
      | ok os' =>
        rw [hxs] at hx
        injection hx with h'
        rw [List.cons_append]
        unfold MainRs.process_recipes
        rw [hpx, ih ys os' ps hxs hy, ← h', List.cons_append]

/-- Claim C6: during enrichment, a record whose `category` names a sheet
title absent from the (join-time) dataset is skipped — left unchanged, with
no `filenames` attached — while all other records are processed and the
whole pass returns success with the sheet re-inserted under its title. -/
theorem c6_dangling_category_skipped (d : MainRs.Dataset)
    (recipes : MainRs.JsonSheet) (rest : MainRs.Dataset)
    (rs1 rs2 out1 out2 : List Record) (r : Record) (c n : String)
    (hrem : MainRs.dmRemove d "Recipes" = some (recipes, rest))
    (hrows : recipes.rows = rs1 ++ r :: rs2)
    (hc : mapGet r "category" = some (JValue.str c))
    (hn : mapGet r "name" = some (JValue.str n))
    (hmiss : MainRs.dmGet rest c = none)
    (h1 : MainRs.process_recipes rest rs1 = RResult.ok out1)
    (h2 : MainRs.process_recipes rest rs2 = RResult.ok out2) :
    MainRs.assign_filenames_to_recipes d =
      RResult.ok (MainRs.dmInsert rest "Recipes"
        { title := recipes.title, rows := out1 ++ r :: out2 }) := by
  have hmid : MainRs.process_recipes rest (r :: rs2) = RResult.ok (r :: out2) := by
    unfold MainRs.process_recipes
    rw [mn_process_recipe_skip rest r c n hc hn hmiss, h2]
  have hall : MainRs.process_recipes rest recipes.rows = RResult.ok (out1 ++ r :: out2) := by
    rw [hrows]
    exact mn_process_recipes_append rest rs1 (r :: rs2) out1 (r :: out2) h1 hmid
  simp only [MainRs.assign_filenames_to_recipes, hrem, hall]

/-- Claim C6 witness: a dataset whose single recipe names a nonexistent
category sheet; enrichment succeeds and leaves the record unchanged. -/
theorem c6_witness :
    MainRs.dmGet ([] : MainRs.Dataset) "Nope" = none ∧
    MainRs.assign_filenames_to_recipes exC6dataset =
      RResult.ok (MainRs.dmInsert [] "Recipes"
        { title := "Recipes", rows := [] ++ poorRecipe :: [] }) :=
  ⟨rfl,
   c6_dangling_category_skipped exC6dataset ⟨"Recipes", [poorRecipe]⟩ [] [] [] [] []
     poorRecipe "Nope" "p" rfl rfl rfl rfl rfl rfl rfl⟩
